import Mathlib

/-!
Verification of the WhyBase RAG pipeline (embedding, chunking, tenant-scoped
vector search, retrieval orchestration, and the full-replace sync job).

The definitions below are a shallow embedding of the Python source:

* `server/api/services/embedding_service.py` — `chunk_text`,
  `prepare_issue_for_embedding`, `prepare_repository_for_embedding`,
  `embed_text`, `embed_batch`;
* `server/api/services/knowledge_retrieval.py` — `search_similar_embeddings`,
  `get_all_context`;
* `server/sync_embeddings.py` — `sync_embeddings`.

Python strings are modelled as `List Char`; the pgvector cosine-distance
operator and the sentence-embedding model are opaque parameters (`dist`,
`model`) since their numerics live outside the repository; similarity scores
are idealized as rationals.  Database rows are lists of `DBRow`.
-/

namespace WhyBase

/-- Python strings are `List Char` here. -/
abbrev Str := List Char

/-- Characters removed by Python `str.strip()` (ASCII whitespace). -/
def pyIsSpace (c : Char) : Bool :=
  c == ' ' || c == '\t' || c == '\n' || c == '\r' || c == Char.ofNat 11 || c == Char.ofNat 12

/-- Python `str.strip()`: drop leading and trailing whitespace. -/
def pyStrip (s : Str) : Str :=
  ((s.dropWhile pyIsSpace).reverse.dropWhile pyIsSpace).reverse

/-- Adjust one Python slice index: negative indices count from the end, and the
result is clamped to `[0, n]`. -/
def pyIdx (n : Nat) (i : Int) : Nat :=
  if i < 0 then (i + n).toNat else min i.toNat n

/-- Python `s[a:b]` for arbitrary integer bounds. -/
def pySlice (s : Str) (a b : Int) : Str :=
  let a' := pyIdx s.length a
  let b' := pyIdx s.length b
  (s.drop a').take (b' - a')

/-- Scan for the last index where the two-character pattern `c1 c2` starts;
`best` carries the best match so far (indices grow left to right, so the last
write wins, as in Python `str.rfind`). -/
def rfind2Aux (c1 c2 : Char) : Str → Nat → Option Nat → Option Nat
  | a :: b :: rest, i, best =>
      rfind2Aux c1 c2 (b :: rest) (i + 1) (if a == c1 && b == c2 then some i else best)
  | _, _, best => best

/-- Python `s.rfind(c1 + c2)` for a two-character needle: last start index of
the pattern, `-1` if absent. -/
def rfind2 (s : Str) (c1 c2 : Char) : Int :=
  match rfind2Aux c1 c2 s 0 none with
  | some i => (i : Int)
  | none => -1

/-- Scan for the last index of character `c`. -/
def rfind1Aux (c : Char) : Str → Nat → Option Nat → Option Nat
  | a :: rest, i, best =>
      rfind1Aux c rest (i + 1) (if a == c then some i else best)
  | [], _, best => best

/-- Python `s.rfind(c)` for a single character: last index, `-1` if absent. -/
def rfind1 (s : Str) (c : Char) : Int :=
  match rfind1Aux c s 0 none with
  | some i => (i : Int)
  | none => -1

/-- One window-end computation of `EmbeddingService.chunk_text`: take the
window `text[start : start+max_length]`; if it still lies strictly inside the
text, look for the last sentence terminator (`". "`) or newline and, when the
break point sits in the second half of the window (`break_point > max_length *
0.5`, an exact comparison since `max_length * 0.5` is a dyadic float), end the
chunk just after it. -/
def chunkEnd (text : Str) (max_length : Nat) (start : Int) : Int :=
  let e : Int := start + (max_length : Int)
  if e < (text.length : Int) then
    let w := pySlice text start e
    let last_period := rfind2 w '.' ' '
    let last_newline := rfind1 w '\n'
    let break_point := max last_period last_newline
    if 2 * break_point > (max_length : Int) then start + break_point + 1 else e
  else e

/-- One loop iteration of `chunk_text`: emit the stripped window (if
non-empty) and move the cursor to `end - overlap`. -/
def chunkStep (text : Str) (max_length overlap : Nat) (start : Int) : List Str × Int :=
  let e := chunkEnd text max_length start
  let chunk := pyStrip (pySlice text start e)
  (if chunk.isEmpty then [] else [chunk], e - (overlap : Int))

/-- The `while start < len(text)` loop of `chunk_text`, with explicit fuel:
`none` means the fuel ran out before the loop exited. -/
def chunkLoop (text : Str) (max_length overlap : Nat) : Nat → Int → List Str → Option (List Str)
  | fuel, start, acc =>
    if start < (text.length : Int) then
      match fuel with
      | 0 => none
      | fuel' + 1 =>
          let s := chunkStep text max_length overlap start
          chunkLoop text max_length overlap fuel' s.2 (acc ++ s.1)
    else some acc

/-- `EmbeddingService.chunk_text(text, max_length, overlap)`.  Empty text
gives no chunks; text within `max_length` is returned whole; longer text goes
through the chunking loop (fuel-indexed, `none` = loop still running). -/
def chunk_text (text : Str) (max_length overlap fuel : Nat) : Option (List Str) :=
  if text.isEmpty then some []
  else if text.length ≤ max_length then some [text]
  else chunkLoop text max_length overlap fuel 0 []

/-- `chunk_text` with the fuel `text.length + 1`, which suffices whenever the
cursor strictly advances (in particular for the production parameters
`max_length = 500`, `overlap = 50`; see `chunk_text_len_fuel_ne_none`). -/
def chunk_textD (text : Str) (max_length overlap : Nat) : List Str :=
  (chunk_text text max_length overlap (text.length + 1)).getD []

/-- A chunk is whitespace-only when every character strips away. -/
def isWhitespaceOnly (s : Str) : Bool := s.all pyIsSpace

/-- The two source kinds the sync job ever writes (`'issue'` /
`'repository'` in the Python source). -/
inductive SourceType where
  | issue
  | repository
deriving DecidableEq

/-- The denormalized `metadata` JSON object of an embedding row.  Absent keys
are `none`; `dict.get(k, d)` is `Option.getD`.  The tenant key `user_id` is
injected by the sync job. -/
structure Metadata where
  user_id : Option Int
  title : Option Str
  repository : Option Str
  state : Option Str
  url : Option Str
  name : Option Str
  language : Option Str
  stars : Option Int
  chunk_index : Option Nat
  total_chunks : Option Nat
deriving DecidableEq

/-- An all-`none` metadata object, populated field by field below. -/
def Metadata.empty : Metadata :=
  { user_id := none, title := none, repository := none, state := none,
    url := none, name := none, language := none, stars := none,
    chunk_index := none, total_chunks := none }

/-- A candidate produced by a content preparer, ready to embed. -/
structure Item where
  content : Str
  source_type : SourceType
  source_id : Int
  metadata : Metadata
deriving DecidableEq

/-- Input shape of a GitHub issue as `sync_embeddings` passes it to the
preparer (`body` may be `None`). -/
structure IssueInput where
  id : Int
  title : Str
  body : Option Str
  repository_name : Str
  state : Str
  url : Str
deriving DecidableEq

/-- Input shape of a GitHub repository (`description` may be `None`). -/
structure RepoInput where
  id : Int
  name : Str
  description : Option Str
  language : Str
  stars : Int
  url : Str
deriving DecidableEq

/-- `EmbeddingService.prepare_issue_for_embedding`: combine title and body
(`f"{title}\n\n{body}".strip()`), return no candidates when empty, otherwise
chunk with `max_length=500` (and the default `overlap=50`) and attach
metadata with `chunk_index` and `total_chunks`. -/
def prepare_issue_for_embedding (issue : IssueInput) : List Item :=
  let body := issue.body.getD []
  let full_text := pyStrip (issue.title ++ '\n' :: '\n' :: body)
  if full_text.isEmpty then []
  else
    let chunks := chunk_textD full_text 500 50
    chunks.enum.map fun p =>
      { content := p.2, source_type := SourceType.issue, source_id := issue.id,
        metadata :=
          { Metadata.empty with
              title := some issue.title, repository := some issue.repository_name,
              state := some issue.state, url := some issue.url,
              chunk_index := some p.1, total_chunks := some chunks.length } }

/-- `EmbeddingService.prepare_repository_for_embedding`: combine name and
description (`f"{name}\n{description}".strip()`), falling back to the bare
name when that is empty; never chunked. -/
def prepare_repository_for_embedding (repo : RepoInput) : Item :=
  let description := repo.description.getD []
  let text0 := pyStrip (repo.name ++ '\n' :: description)
  let text1 := if text0.isEmpty then repo.name else text0
  { content := text1, source_type := SourceType.repository, source_id := repo.id,
    metadata :=
      { Metadata.empty with
          name := some repo.name, language := some repo.language,
          stars := some repo.stars, url := some repo.url } }

/-- `EmbeddingService.embed_text`: zero vector of the model dimensionality for
empty input, otherwise the model's embedding.  The sentence-transformer itself
is the opaque parameter `model`. -/
def embed_text (model : Str → List ℚ) (text : Str) : List ℚ :=
  if text.isEmpty then List.replicate 384 0 else model text

/-- `EmbeddingService.embed_batch`: empty inputs are substituted with a single
space before encoding, so the output has one vector per input. -/
def embed_batch (model : Str → List ℚ) (texts : List Str) : List (List ℚ) :=
  if texts.isEmpty then []
  else (texts.map fun t => if t.isEmpty then [' '] else t).map model

/-- A stored row of the `embeddings` table. -/
structure DBRow where
  content : Str
  embedding : List ℚ
  source_type : SourceType
  source_id : Int
  metadata : Metadata
deriving DecidableEq

/-- One element of the list `search_similar_embeddings` returns. -/
structure SearchResult where
  content : Str
  source_type : SourceType
  source_id : Int
  metadata : Metadata
  similarity : ℚ
deriving DecidableEq

/-- The result dict built for one row of the search output:
`similarity = 1 - (embedding <=> query_embedding)`, metadata passed through. -/
def toResult (dist : List ℚ → List ℚ → ℚ) (query_embedding : List ℚ) (r : DBRow) :
    SearchResult :=
  { content := r.content, source_type := r.source_type, source_id := r.source_id,
    metadata := r.metadata,
    similarity := 1 - dist r.embedding query_embedding }

/-- `search_similar_embeddings(query, user_id, limit, min_similarity)` over an
explicit table `rows`, with the pgvector cosine-distance operator `<=>` as the
opaque parameter `dist`.  The SQL scopes rows to the tenant
(`metadata->>'user_id' = str(user_id)`), orders by distance ascending (ties
broken stably by stored order), truncates to `limit`, and the Python loop then
drops rows with `similarity < min_similarity`, where
`similarity = 1 - dist`. -/
def search_similar_embeddings (model : Str → List ℚ) (dist : List ℚ → List ℚ → ℚ)
    (rows : List DBRow) (query : Str) (user_id : Int) (limit : Nat)
    (min_similarity : ℚ) : List SearchResult :=
  let query_embedding := embed_text model query
  let tenant_rows := rows.filter fun r => r.metadata.user_id == some user_id
  let ordered := tenant_rows.mergeSort fun a b =>
    decide (dist a.embedding query_embedding ≤ dist b.embedding query_embedding)
  let limited := ordered.take limit
  let mapped := limited.map (toResult dist query_embedding)
  mapped.filter fun res => decide (min_similarity ≤ res.similarity)

/-- The `limit` stored rows of a tenant nearest to the query by the distance
operator — exactly the candidate set the SQL `ORDER BY ... LIMIT` produces. -/
def nearestRows (model : Str → List ℚ) (dist : List ℚ → List ℚ → ℚ)
    (rows : List DBRow) (query : Str) (user_id : Int) (limit : Nat) : List DBRow :=
  let query_embedding := embed_text model query
  let tenant_rows := rows.filter fun r => r.metadata.user_id == some user_id
  (tenant_rows.mergeSort fun a b =>
    decide (dist a.embedding query_embedding ≤ dist b.embedding query_embedding)).take limit

/-- How many of a tenant's stored rows meet the similarity threshold for a
given query. -/
def qualifyingCount (model : Str → List ℚ) (dist : List ℚ → List ℚ → ℚ)
    (rows : List DBRow) (query : Str) (user_id : Int) (min_similarity : ℚ) : Nat :=
  ((rows.filter fun r => r.metadata.user_id == some user_id).filter fun r =>
    decide (min_similarity ≤ 1 - dist r.embedding (embed_text model query))).length

/-- The same search with the vector-store outcome made explicit: connecting
and querying the store can fail (`Except.error`), and
`search_similar_embeddings` has no handler, so a store failure propagates. -/
def search_similar_embeddingsE (model : Str → List ℚ) (dist : List ℚ → List ℚ → ℚ)
    (store : Except String (List DBRow)) (query : Str) (user_id : Int)
    (limit : Nat) (min_similarity : ℚ) : Except String (List SearchResult) :=
  match store with
  | Except.error e => Except.error e
  | Except.ok rows =>
      Except.ok (search_similar_embeddings model dist rows query user_id limit min_similarity)

/-- The dedup key `f"{source_type}_{source_id}"`; the pair is in bijection
with the Python key string because a source type tag contains no underscore
followed by digits. -/
def sourceKey (r : SearchResult) : SourceType × Int := (r.source_type, r.source_id)

/-- `round(x, 2)` on a similarity score (idealized as rational
round-to-nearest; claims below do not depend on the tie-breaking rule). -/
def round2 (q : ℚ) : ℚ := (round (q * 100) : ℤ) / 100

/-- Display shape of the per-type `metadata` sub-dict of a citation. -/
inductive CitationMeta where
  | issueMeta (repository state : Str) (similarity : ℚ)
  | repoMeta (language : Str) (stars : Int) (similarity : ℚ)
deriving DecidableEq

/-- One entry of the citation list built by `get_all_context`. -/
structure Citation where
  ctype : SourceType
  title : Str
  url : Str
  meta : CitationMeta
deriving DecidableEq

/-- The citation built from one retrieval result (the body of the two
`source_type` branches in `get_all_context`). -/
def buildCitation (r : SearchResult) : Citation :=
  match r.source_type with
  | SourceType.issue =>
      { ctype := SourceType.issue,
        title := r.metadata.title.getD (("GitHub Issue").toList),
        url := r.metadata.url.getD [],
        meta := CitationMeta.issueMeta (r.metadata.repository.getD [])
          (r.metadata.state.getD []) (round2 r.similarity) }
  | SourceType.repository =>
      { ctype := SourceType.repository,
        title := r.metadata.name.getD (("GitHub Repository").toList),
        url := r.metadata.url.getD [],
        meta := CitationMeta.repoMeta (r.metadata.language.getD [])
          (r.metadata.stars.getD 0) (round2 r.similarity) }

/-- The line `f"[Source {i}] {content}"`. -/
def sourceLine (i : Nat) (content : Str) : Str :=
  ("[Source ").toList ++ (Nat.repr i).toList ++ ("] ").toList ++ content

/-- The citation-building loop of `get_all_context`: iterate results in
ranked order with a `seen_sources` set, appending one citation per unseen
`(source_type, source_id)` key. -/
def citationLoop (results : List SearchResult) : List Citation × List (SourceType × Int) :=
  results.foldl
    (fun st r =>
      if sourceKey r ∈ st.2 then st
      else (st.1 ++ [buildCitation r], st.2 ++ [sourceKey r]))
    ([], [])

/-- The part of `get_all_context` that runs after the search: empty results
give `("", [], 0)`; otherwise number the results from 1 into the context
block and build the deduplicated citation list, returning its length as the
source count. -/
def get_all_context_results (results : List SearchResult) : Str × List Citation × Nat :=
  if results.isEmpty then ([], [], 0)
  else
    let context_parts := results.enum.map fun p => sourceLine (p.1 + 1) p.2.content
    let sources := (citationLoop results).1
    (List.intercalate ['\n', '\n'] context_parts, sources, sources.length)

/-- `get_all_context(query, user_id)`: search with `limit=7`,
`min_similarity=0.3`, then build context and citations.  There is no
`try/except` around the search, so a store failure propagates to the caller
unchanged. -/
def get_all_context (model : Str → List ℚ) (dist : List ℚ → List ℚ → ℚ)
    (store : Except String (List DBRow)) (query : Str) (user_id : Int) :
    Except String (Str × List Citation × Nat) :=
  match search_similar_embeddingsE model dist store query user_id 7 (3 / 10) with
  | Except.error e => Except.error e
  | Except.ok results => Except.ok (get_all_context_results results)

/-- A stored embedding row built from a prepared item and its vector. -/
def mkRow (p : Item × List ℚ) : DBRow :=
  { content := p.1.content, embedding := p.2, source_type := p.1.source_type,
    source_id := p.1.source_id, metadata := p.1.metadata }

/-- The sync job writes the tenant id into each candidate's metadata
(`chunk['metadata']['user_id'] = user_id`). -/
def setUserId (uid : Int) (item : Item) : Item :=
  { item with metadata := { item.metadata with user_id := some uid } }

/-- `sync_embeddings(user_id)` as a transformer of the embeddings table:
if the tenant has no issues and no repositories it logs and returns before
touching the table; otherwise it deletes the tenant's rows
(`DELETE FROM embeddings WHERE metadata->>'user_id' = str(user_id)`),
prepares all issue chunks and repository items with the tenant id injected,
returns early if nothing is embeddable (after the delete), and otherwise
batch-embeds and inserts one row per item. -/
def sync_embeddings (model : Str → List ℚ) (db : List DBRow) (user_id : Int)
    (issues : List IssueInput) (repos : List RepoInput) : List DBRow :=
  if issues.isEmpty && repos.isEmpty then db
  else
    let db1 := db.filter fun r => !(r.metadata.user_id == some user_id)
    let all_chunks := issues.flatMap fun i =>
      (prepare_issue_for_embedding i).map (setUserId user_id)
    let repo_items := repos.map fun rp =>
      setUserId user_id (prepare_repository_for_embedding rp)
    let all_items := all_chunks ++ repo_items
    if all_items.isEmpty then db1
    else
      let texts := all_items.map Item.content
      let embeddings := embed_batch model texts
      db1 ++ (all_items.zip embeddings).map mkRow

/-- Number of stored rows belonging to a tenant. -/
def tenantCount (uid : Int) (db : List DBRow) : Nat :=
  (db.filter fun r => r.metadata.user_id == some uid).length

/-- The chunking loop terminates on this input: some fuel is enough. -/
def chunkTerminates (text : Str) (max_length overlap : Nat) : Prop :=
  ∃ fuel, chunk_text text max_length overlap fuel ≠ none

/-- Spec-side reading of the citation dedup ("first occurrence of a given
source wins"), written independently of the loop: keep a result when its
`(source_type, source_id)` key is new. -/
def dedupFirstAux (seen : List (SourceType × Int)) : List SearchResult → List SearchResult
  | [] => []
  | r :: rs =>
      if sourceKey r ∈ seen then dedupFirstAux seen rs
      else r :: dedupFirstAux (sourceKey r :: seen) rs

/-- The first-occurrence representatives of the distinct sources of a ranked
result list, in ranked order. -/
def dedupFirstOccurrence (results : List SearchResult) : List SearchResult :=
  dedupFirstAux [] results

/-! Concrete inputs used by counterexamples and witnesses. -/

/-- A 17-character text on which `chunk_text(·, 10, 9)` loops forever: the
first window breaks at the sentence terminator and the cursor moves to
`7 - 9 = -2`, after which it cycles through `-2, -1, 0` without progress. -/
def cycleText : Str := ("abcdef. ijklmnopq").toList

/-- A 1200-character issue text with a sentence terminator every 253
characters, so window trimming fires on every chunk. -/
def denseBreakTitle : Str :=
  (List.replicate 4 (List.replicate 251 'a' ++ ['.', ' '])).flatten ++
    List.replicate 188 'a'

/-- An issue carrying `denseBreakTitle` and no body. -/
def denseBreakIssue : IssueInput :=
  { id := 1, title := denseBreakTitle, body := none,
    repository_name := ("r").toList, state := ("open").toList,
    url := ("u").toList }

/-- A trivial embedding model used for concrete instances. -/
def model0 : Str → List ℚ := fun _ => []

/-- A trivial distance operator used for concrete instances. -/
def dist0 : List ℚ → List ℚ → ℚ := fun _ _ => 0

/-- Metadata of a concrete stored row of tenant 1. -/
def metaA : Metadata :=
  { Metadata.empty with
      user_id := some 1,
      title := some (("T").toList),
      url := some (("u").toList) }

/-- A concrete stored embedding row of tenant 1. -/
def rowA : DBRow :=
  { content := ("hello").toList, embedding := [], source_type := SourceType.issue,
    source_id := 5, metadata := metaA }

/-- The search result produced from `rowA` under `model0`/`dist0`. -/
def resA : SearchResult :=
  { content := ("hello").toList, source_type := SourceType.issue, source_id := 5,
    metadata := metaA, similarity := 1 }

/-- A second result with the same source key as `resA` but lower rank, and a
third from a different source: input for the dedup witness. -/
def resB : SearchResult :=
  { content := ("world").toList, source_type := SourceType.issue, source_id := 5,
    metadata := metaA, similarity := 1 / 2 }

/-- A result from a distinct repository source. -/
def resC : SearchResult :=
  { content := ("repo").toList, source_type := SourceType.repository, source_id := 5,
    metadata := { Metadata.empty with user_id := some 1, name := some (("n").toList) },
    similarity := 2 / 5 }

/-! ### Chunker lemmas -/

theorem chunkLoop_stop (text : Str) (m o fuel : Nat) (start : Int) (acc : List Str)
    (h : ¬ start < (text.length : Int)) :
    chunkLoop text m o fuel start acc = some acc := by
  unfold chunkLoop
  rw [if_neg h]

theorem chunkLoop_cont (text : Str) (m o fuel : Nat) (start : Int) (acc : List Str)
    (h : start < (text.length : Int)) :
    chunkLoop text m o (fuel + 1) start acc =
      chunkLoop text m o fuel (chunkStep text m o start).2
        (acc ++ (chunkStep text m o start).1) := by
  conv_lhs => unfold chunkLoop
  rw [if_pos h]

theorem chunkStep_snd (text : Str) (m o : Nat) (start : Int) :
    (chunkStep text m o start).2 = chunkEnd text m start - o := rfl

/-- When the overlap is at most half of the window, the cursor strictly
advances: both the untrimmed end `start + m` and a trimmed end
`start + break_point + 1` (with `2 * break_point > m ≥ 2 * o`) land more than
`o` past `start`. -/
theorem chunkEnd_advance (text : Str) (m o : Nat) (start : Int)
    (h1 : o < m) (h2 : 2 * o ≤ m) :
    start + 1 ≤ chunkEnd text m start - o := by
  simp only [chunkEnd]
  split_ifs <;> omega

theorem chunkLoop_advance_ne_none (text : Str) (m o : Nat)
    (h1 : o < m) (h2 : 2 * o ≤ m) :
    ∀ (fuel : Nat) (start : Int) (acc : List Str),
      (text.length : Int) - start < fuel →
      chunkLoop text m o fuel start acc ≠ none := by
  intro fuel
  induction fuel with
  | zero =>
      intro start acc hf
      rw [chunkLoop_stop text m o 0 start acc (by omega)]
      exact fun h => Option.noConfusion h
  | succ n ih =>
      intro start acc hf
      by_cases hc : start < (text.length : Int)
      · rw [chunkLoop_cont text m o n start acc hc]
        refine ih _ _ ?_
        have hadv := chunkEnd_advance text m o start h1 h2
        rw [chunkStep_snd]
        omega
      · rw [chunkLoop_stop text m o (n + 1) start acc hc]
        exact fun h => Option.noConfusion h

theorem chunk_text_advance_ne_none (text : Str) (m o : Nat)
    (h1 : o < m) (h2 : 2 * o ≤ m) :
    chunk_text text m o (text.length + 1) ≠ none := by
  unfold chunk_text
  split_ifs with he hs
  · exact fun h => Option.noConfusion h
  · exact fun h => Option.noConfusion h
  · exact chunkLoop_advance_ne_none text m o h1 h2 _ 0 [] (by omega)

/-- On `cycleText` with `max_length = 10, overlap = 9` the cursor cycles
through `0, -2, -1` forever, so the loop never exits whatever the fuel. -/
theorem chunkLoop_cycleText_none :
    ∀ (fuel : Nat) (start : Int) (acc : List Str),
      start = 0 ∨ start = -2 ∨ start = -1 →
      chunkLoop cycleText 10 9 fuel start acc = none := by
  intro fuel
  induction fuel with
  | zero =>
      intro start acc h
      have hc : start < (cycleText.length : Int) := by
        rcases h with h | h | h <;> subst h <;> decide
      unfold chunkLoop
      rw [if_pos hc]
  | succ n ih =>
      intro start acc h
      have hc : start < (cycleText.length : Int) := by
        rcases h with h | h | h <;> subst h <;> decide
      rw [chunkLoop_cont cycleText 10 9 n start acc hc]
      apply ih
      rcases h with h | h | h <;> subst h
      · exact Or.inr (Or.inl (by decide))
      · exact Or.inr (Or.inr (by decide))
      · exact Or.inl (by decide)

/-- C5 counterexample: `max_length = 10 > 9 = overlap`, yet on `cycleText`
the very first iteration moves the cursor backwards (to `-2`) and the
chunking loop never terminates. -/
theorem chunk_text_nontermination_cex :
    9 < 10 ∧ (chunkStep cycleText 10 9 0).2 < 0 ∧ ¬ chunkTerminates cycleText 10 9 := by
  refine ⟨by norm_num, by decide, ?_⟩
  rintro ⟨fuel, hf⟩
  apply hf
  unfold chunk_text
  rw [if_neg (by decide), if_neg (by decide)]
  exact chunkLoop_cycleText_none fuel 0 [] (Or.inl rfl)

/-- C5 (amended): when additionally `2 * overlap ≤ max_length`, the cursor
strictly advances on every iteration and the loop finishes within
`len(text) + 1` iterations. -/
theorem chunk_text_terminates_half_overlap (text : Str) (m o : Nat)
    (h1 : o < m) (h2 : 2 * o ≤ m) :
    (∀ start : Int, start + 1 ≤ (chunkStep text m o start).2) ∧
      chunk_text text m o (text.length + 1) ≠ none := by
  constructor
  · intro s
    rw [chunkStep_snd]
    exact chunkEnd_advance text m o s h1 h2
  · exact chunk_text_advance_ne_none text m o h1 h2

theorem chunk_text_terminates_half_overlap_witness :
    (0 : Int) + 1 ≤ (chunkStep (List.replicate 600 'a') 500 50 0).2 ∧
      chunk_text (List.replicate 600 'a') 500 50 ((List.replicate 600 'a').length + 1) ≠ none := by
  have h := chunk_text_terminates_half_overlap (List.replicate 600 'a') 500 50
    (by norm_num) (by norm_num)
  exact ⟨h.1 0, h.2⟩

/-! ### Strip lemmas for chunk non-emptiness -/

theorem dropWhile_head_false {α : Type} (p : α → Bool) :
    ∀ (l : List α) (x : α) (r : List α), l.dropWhile p = x :: r → p x = false := by
  intro l
  induction l with
  | nil => intro x r h; simp at h
  | cons a t ih =>
      intro x r h
      rw [List.dropWhile_cons] at h
      by_cases hpa : p a = true
      · rw [if_pos hpa] at h
        exact ih x r h
      · rw [if_neg hpa] at h
        injection h with h1 h2
        rw [← h1]
        revert hpa
        cases p a <;> simp

theorem pyStrip_append_recover (s : Str) :
    pyStrip s ++ ((s.dropWhile pyIsSpace).reverse.takeWhile pyIsSpace).reverse =
      s.dropWhile pyIsSpace := by
  unfold pyStrip
  rw [← List.reverse_append, List.takeWhile_append_dropWhile, List.reverse_reverse]

/-- A non-empty stripped string starts with a non-whitespace character, so it
is never whitespace-only. -/
theorem pyStrip_not_whitespaceOnly (s : Str) (h : pyStrip s ≠ []) :
    isWhitespaceOnly (pyStrip s) = false := by
  obtain ⟨x, r, hxr⟩ : ∃ x r, pyStrip s = x :: r := by
    cases hps : pyStrip s with
    | nil => exact absurd hps h
    | cons x r => exact ⟨x, r, rfl⟩
  have hrec := pyStrip_append_recover s
  rw [hxr] at hrec
  have hpx : pyIsSpace x = false :=
    dropWhile_head_false pyIsSpace s x _ hrec.symm
  rw [hxr]
  simp [isWhitespaceOnly, hpx]

theorem chunkLoop_chunks_sound (text : Str) (m o : Nat) :
    ∀ (fuel : Nat) (start : Int) (acc res : List Str),
      (∀ c ∈ acc, c ≠ [] ∧ isWhitespaceOnly c = false) →
      chunkLoop text m o fuel start acc = some res →
      ∀ c ∈ res, c ≠ [] ∧ isWhitespaceOnly c = false := by
  intro fuel
  induction fuel with
  | zero =>
      intro start acc res hacc heq
      by_cases hc : start < (text.length : Int)
      · unfold chunkLoop at heq
        rw [if_pos hc] at heq
        exact Option.noConfusion heq
      · rw [chunkLoop_stop text m o 0 start acc hc] at heq
        cases heq
        exact hacc
  | succ n ih =>
      intro start acc res hacc heq
      by_cases hc : start < (text.length : Int)
      · rw [chunkLoop_cont text m o n start acc hc] at heq
        refine ih _ _ _ ?_ heq
        intro c hcm
        rcases List.mem_append.1 hcm with hm | hm
        · exact hacc c hm
        · revert hm
          show c ∈ (chunkStep text m o start).1 → _
          simp only [chunkStep]
          split_ifs with hemp
          · intro hm; simp at hm
          · intro hm
            have hceq : c = pyStrip (pySlice text start (chunkEnd text m start)) := by
              simpa using hm
            subst hceq
            have hne : pyStrip (pySlice text start (chunkEnd text m start)) ≠ [] := by
              intro h0
              rw [h0] at hemp
              simp at hemp
            exact ⟨hne, pyStrip_not_whitespaceOnly _ hne⟩
      · rw [chunkLoop_stop text m o (n + 1) start acc hc] at heq
        cases heq
        exact hacc

/-- C6 (amended): every chunk `chunk_text` returns is non-empty, and every
chunk produced by the splitting loop (`len(text) > max_length`) is moreover
not whitespace-only.  (The short path returns the text verbatim, so a
whitespace-only input short enough is returned as a whitespace-only chunk —
see the counterexample.) -/
theorem chunk_text_chunks_nonempty (text : Str) (m o fuel : Nat) (res : List Str)
    (h : chunk_text text m o fuel = some res) :
    (∀ c ∈ res, c ≠ []) ∧ (m < text.length → ∀ c ∈ res, isWhitespaceOnly c = false) := by
  unfold chunk_text at h
  split_ifs at h with he hs
  · cases h
    exact ⟨fun c hc => absurd hc (by simp), fun _ c hc => absurd hc (by simp)⟩
  · cases h
    constructor
    · intro c hc
      rw [List.mem_singleton] at hc
      subst hc
      intro h0
      rw [h0] at he
      simp at he
    · intro hm
      exact absurd hm (by omega)
  · exact ⟨fun c hc => (chunkLoop_chunks_sound text m o fuel 0 [] res (by simp) h c hc).1,
      fun _ c hc => (chunkLoop_chunks_sound text m o fuel 0 [] res (by simp) h c hc).2⟩

/-- C6 counterexample: the single-space input is short enough to be returned
verbatim, producing a whitespace-only chunk. -/
theorem chunk_text_whitespace_chunk_cex :
    chunk_text [' '] 500 50 2 = some [[' ']] ∧ isWhitespaceOnly [' '] = true := by
  exact ⟨by decide, by decide⟩

set_option maxRecDepth 4000 in
theorem chunk_text_chunks_nonempty_witness :
    List.replicate 500 'a' ≠ ([] : Str) ∧
      isWhitespaceOnly (List.replicate 500 'a') = false := by
  have h := chunk_text_chunks_nonempty (List.replicate 600 'a') 500 50 601
    [List.replicate 500 'a', List.replicate 150 'a'] (by decide)
  exact ⟨h.1 _ (by simp), h.2 (by simp) _ (by simp)⟩

/-! ### Error propagation at the orchestrator (C3) -/

/-- C3 counterexample: on a failing store, `get_all_context` does not return
the empty-result value — the error propagates unchanged (the function has no
`try/except`; the catch-all handler lives in the route layer, which returns a
500 response, not the empty-context path). -/
theorem get_all_context_store_error_cex :
    get_all_context model0 dist0 (Except.error ("connection failed")) [] 1 ≠
      Except.ok (([] : Str), ([] : List Citation), 0) ∧
    get_all_context model0 dist0 (Except.error ("connection failed")) [] 1 =
      Except.error ("connection failed") := by
  exact ⟨fun h => Except.noConfusion h, rfl⟩

/-- C3 (amended): a store failure during query-time retrieval propagates out
of `get_all_context` to its caller instead of being converted to
`("", [], 0)`. -/
theorem get_all_context_store_error_propagates (model : Str → List ℚ)
    (dist : List ℚ → List ℚ → ℚ) (e : String) (query : Str) (uid : Int) :
    get_all_context model dist (Except.error e) query uid = Except.error e := rfl

/-! ### Sync no-op on empty sources (C4) -/

/-- C4: when the tenant has no issues and no repositories, `sync_embeddings`
returns before the `DELETE`, leaving the stored table untouched. -/
theorem sync_noop_on_empty_sources (model : Str → List ℚ) (db : List DBRow)
    (uid : Int) (issues : List IssueInput) (repos : List RepoInput)
    (h1 : issues = []) (h2 : repos = []) :
    sync_embeddings model db uid issues repos = db := by
  subst h1
  subst h2
  rfl

theorem sync_noop_on_empty_sources_witness :
    sync_embeddings model0 [rowA] 1 [] [] = [rowA] :=
  sync_noop_on_empty_sources model0 [rowA] 1 [] [] rfl rfl

/-! ### Idempotent resync (C8) -/

theorem embed_batch_length (model : Str → List ℚ) (ts : List Str) :
    (embed_batch model ts).length = ts.length := by
  unfold embed_batch
  split_ifs with h
  · rw [List.isEmpty_iff.1 h]
    rfl
  · simp

theorem setUserId_user_id (uid : Int) (it : Item) :
    (setUserId uid it).metadata.user_id = some uid := rfl

/-- All candidates a sync run prepares carry the tenant id. -/
theorem sync_items_user_id (uid : Int) (issues : List IssueInput) (repos : List RepoInput) :
    ∀ it ∈ (issues.flatMap fun i => (prepare_issue_for_embedding i).map (setUserId uid)) ++
        (repos.map fun rp => setUserId uid (prepare_repository_for_embedding rp)),
      it.metadata.user_id = some uid := by
  intro it hit
  rcases List.mem_append.1 hit with h | h
  · obtain ⟨i, _, hmem⟩ := List.mem_flatMap.1 h
    obtain ⟨j, _, rfl⟩ := List.mem_map.1 hmem
    rfl
  · obtain ⟨rp, _, rfl⟩ := List.mem_map.1 h
    rfl

/-- Deleting a tenant's rows leaves none of that tenant's rows. -/
theorem tenantCount_delete (uid : Int) (db : List DBRow) :
    tenantCount uid (db.filter fun r => !(r.metadata.user_id == some uid)) = 0 := by
  unfold tenantCount
  rw [List.filter_filter]
  have hfalse : (List.filter
      (fun r => (r.metadata.user_id == some uid) && !(r.metadata.user_id == some uid)) db) = [] := by
    apply List.filter_eq_nil_iff.2
    intro r _
    cases r.metadata.user_id == some uid <;> simp
  rw [hfalse]
  rfl

/-- Inserted rows all match the tenant filter: the delete-then-insert keeps
exactly the freshly prepared rows for the tenant. -/
theorem filter_user_map_mkRow (uid : Int) (items : List Item) (embs : List (List ℚ))
    (hall : ∀ it ∈ items, it.metadata.user_id = some uid) :
    List.filter (fun r => r.metadata.user_id == some uid) ((items.zip embs).map mkRow) =
      (items.zip embs).map mkRow := by
  apply List.filter_eq_self.2
  intro r hr
  obtain ⟨q, hq, rfl⟩ := List.mem_map.1 hr
  obtain ⟨it, emb⟩ := q
  have h1 := (List.of_mem_zip hq).1
  have h2 : (mkRow (it, emb)).metadata.user_id = some uid := hall it h1
  show ((mkRow (it, emb)).metadata.user_id == some uid) = true
  rw [h2]
  exact beq_self_eq_true _

/-- After a sync run with any source content present, the tenant's row count
is exactly the number of prepared candidates — independent of the prior table
contents. -/
theorem tenantCount_sync (model : Str → List ℚ) (db : List DBRow) (uid : Int)
    (issues : List IssueInput) (repos : List RepoInput)
    (h : (issues.isEmpty && repos.isEmpty) = false) :
    tenantCount uid (sync_embeddings model db uid issues repos) =
      ((issues.flatMap fun i => (prepare_issue_for_embedding i).map (setUserId uid)) ++
        (repos.map fun rp => setUserId uid (prepare_repository_for_embedding rp))).length := by
  unfold sync_embeddings
  rw [if_neg (by simp [h])]
  dsimp only
  split_ifs with hi
  · rw [List.isEmpty_iff.1 hi]
    exact tenantCount_delete uid db
  · unfold tenantCount
    rw [List.filter_append]
    have h1 := tenantCount_delete uid db
    unfold tenantCount at h1
    rw [List.length_append, h1,
      filter_user_map_mkRow uid _ _ (sync_items_user_id uid issues repos),
      List.length_map, List.length_zip, embed_batch_length, List.length_map]
    simp

/-- C8: resyncing with unchanged source data yields the same tenant row count
both times — the delete-all-then-insert strategy neither accumulates nor
duplicates rows. -/
theorem sync_idempotent_count (model : Str → List ℚ) (db : List DBRow) (uid : Int)
    (issues : List IssueInput) (repos : List RepoInput) :
    tenantCount uid
        (sync_embeddings model (sync_embeddings model db uid issues repos) uid issues repos) =
      tenantCount uid (sync_embeddings model db uid issues repos) := by
  by_cases hemp : (issues.isEmpty && repos.isEmpty) = true
  · simp only [sync_embeddings, if_pos hemp]
  · have h := Bool.of_not_eq_true hemp
    rw [tenantCount_sync model _ uid issues repos h, tenantCount_sync model db uid issues repos h]

/-! ### Search lemmas (C1, C2, C10) -/

/-- Every returned search row arises from one of the tenant's `limit` nearest
stored rows, and passed the threshold filter. -/
theorem search_mem_structure (model : Str → List ℚ) (dist : List ℚ → List ℚ → ℚ)
    (rows : List DBRow) (query : Str) (uid : Int) (limit : Nat) (minSim : ℚ)
    (r : SearchResult)
    (h : r ∈ search_similar_embeddings model dist rows query uid limit minSim) :
    ∃ row ∈ nearestRows model dist rows query uid limit,
      r = toResult dist (embed_text model query) row ∧ minSim ≤ r.similarity := by
  simp only [search_similar_embeddings] at h
  obtain ⟨hmem, hp⟩ := List.mem_filter.1 h
  obtain ⟨row, hrow, rfl⟩ := List.mem_map.1 hmem
  refine ⟨row, ?_, rfl, of_decide_eq_true hp⟩
  simp only [nearestRows]
  exact hrow

/-- Rows selected as nearest are scoped to the tenant by the SQL filter. -/
theorem nearestRows_tenant (model : Str → List ℚ) (dist : List ℚ → List ℚ → ℚ)
    (rows : List DBRow) (query : Str) (uid : Int) (limit : Nat) (row : DBRow)
    (h : row ∈ nearestRows model dist rows query uid limit) :
    row.metadata.user_id = some uid := by
  simp only [nearestRows] at h
  have h1 := List.take_subset _ _ h
  have h2 := List.mem_mergeSort.1 h1
  have h3 := List.of_mem_filter h2
  exact eq_of_beq h3

/-- C1: every row returned by a search scoped to tenant `uidA` carries tenant
key `uidA`; in particular it never carries a different tenant `uidB`. -/
theorem tenant_isolation (model : Str → List ℚ) (dist : List ℚ → List ℚ → ℚ)
    (rows : List DBRow) (query : Str) (uidA uidB : Int) (limit : Nat) (minSim : ℚ)
    (r : SearchResult)
    (h : r ∈ search_similar_embeddings model dist rows query uidA limit minSim) :
    r.metadata.user_id = some uidA ∧
      (uidB ≠ uidA → r.metadata.user_id ≠ some uidB) := by
  obtain ⟨row, hrow, rfl, -⟩ := search_mem_structure model dist rows query uidA limit minSim r h
  have huser := nearestRows_tenant model dist rows query uidA limit row hrow
  have hmeta : (toResult dist (embed_text model query) row).metadata.user_id = some uidA := huser
  refine ⟨hmeta, fun hne hcontra => ?_⟩
  rw [hmeta] at hcontra
  exact hne (Option.some.inj hcontra).symm

/-- Concrete evaluation of the search on a one-row store of tenant 1. -/
theorem search_concrete :
    search_similar_embeddings model0 dist0 [rowA] (("q").toList) 1 7 (3 / 10) = [resA] := by
  simp only [search_similar_embeddings, model0, dist0, embed_text, rowA, metaA,
    Metadata.empty, toResult, resA]
  norm_num [List.mergeSort_singleton, List.filter]
  simp [toResult, dist0]
  norm_num

theorem tenant_isolation_witness :
    resA.metadata.user_id = some 1 ∧ ((2 : Int) ≠ 1 → resA.metadata.user_id ≠ some 2) :=
  tenant_isolation model0 dist0 [rowA] (("q").toList) 1 2 7 (3 / 10) resA
    (by rw [search_concrete]; exact List.mem_singleton_self resA)

/-- C2: the search returns at most `limit` rows, every returned row meets the
similarity threshold, and results are ordered non-increasingly by similarity
(`1 - cosine_distance`, with the SQL ordering ascending by distance). -/
theorem search_ranked (model : Str → List ℚ) (dist : List ℚ → List ℚ → ℚ)
    (rows : List DBRow) (query : Str) (uid : Int) (limit : Nat) (minSim : ℚ) :
    (search_similar_embeddings model dist rows query uid limit minSim).length ≤ limit ∧
    (∀ r ∈ search_similar_embeddings model dist rows query uid limit minSim,
      minSim ≤ r.similarity) ∧
    List.Pairwise (fun a b => b.similarity ≤ a.similarity)
      (search_similar_embeddings model dist rows query uid limit minSim) := by
  refine ⟨?_, ?_, ?_⟩
  · simp only [search_similar_embeddings]
    calc (List.filter _ (List.map _ _)).length
        ≤ (List.map (toResult dist (embed_text model query)) _).length :=
          List.length_filter_le _ _
      _ ≤ limit := by rw [List.length_map]; exact List.length_take_le _ _
  · intro r h
    obtain ⟨-, -, -, hsim⟩ := search_mem_structure model dist rows query uid limit minSim r h
    exact hsim
  · simp only [search_similar_embeddings]
    apply List.Pairwise.sublist (List.filter_sublist _)
    rw [List.pairwise_map]
    apply List.Pairwise.sublist (List.take_sublist _ _)
    have hsort := @List.sorted_mergeSort DBRow
      (fun a b : DBRow =>
        decide (dist a.embedding (embed_text model query) ≤
          dist b.embedding (embed_text model query)))
      (fun a b c hab hbc =>
        decide_eq_true (le_trans (of_decide_eq_true hab) (of_decide_eq_true hbc)))
      (fun a b => by
        rw [Bool.or_eq_true]
        rcases le_total (dist a.embedding (embed_text model query))
            (dist b.embedding (embed_text model query)) with h | h
        · exact Or.inl (decide_eq_true h)
        · exact Or.inr (decide_eq_true h))
      (rows.filter fun r => r.metadata.user_id == some uid)
    refine hsort.imp ?_
    intro a b hab
    have hd := of_decide_eq_true hab
    show (toResult dist (embed_text model query) b).similarity ≤
      (toResult dist (embed_text model query) a).similarity
    simp only [toResult]
    linarith

theorem search_ranked_witness :
    (search_similar_embeddings model0 dist0 [rowA] (("q").toList) 1 7 (3 / 10)).length ≤ 7 ∧
      (3 / 10 : ℚ) ≤ resA.similarity :=
  ⟨(search_ranked model0 dist0 [rowA] (("q").toList) 1 7 (3 / 10)).1,
    (search_ranked model0 dist0 [rowA] (("q").toList) 1 7 (3 / 10)).2.1 resA
      (by rw [search_concrete]; exact List.mem_singleton_self resA)⟩

/-- In a list sorted by `le`, filtering with a predicate that is closed
downwards along `le` commutes with `take`: the qualifying elements form a
prefix, so the qualifying count of the first `k` elements is
`min k (total qualifying count)`. -/
theorem length_filter_take_sorted {α : Type} (le : α → α → Prop) (q : α → Bool)
    (hmono : ∀ a b, le a b → q b = true → q a = true) :
    ∀ (l : List α), l.Pairwise le → ∀ k : Nat,
      ((l.take k).filter q).length = min k ((l.filter q).length) := by
  intro l
  induction l with
  | nil => intro _ k; simp
  | cons a t ih =>
      intro hp k
      rcases k with _ | k
      · simp
      · rw [List.take_succ_cons]
        by_cases hqa : q a = true
        · rw [List.filter_cons_of_pos hqa, List.filter_cons_of_pos hqa]
          simp only [List.length_cons]
          rw [ih (List.Pairwise.of_cons hp) k]
          omega
        · have hall : ∀ x ∈ t, q x = false := by
            intro x hx
            have hax := (List.pairwise_cons.1 hp).1 x hx
            cases hqx : q x
            · rfl
            · exact absurd (hmono a x hax hqx) hqa
          rw [List.filter_cons_of_neg hqa, List.filter_cons_of_neg hqa]
          have ht : t.filter q = [] :=
            List.filter_eq_nil_iff.2 fun x hx => by rw [hall x hx]; simp
          have htk : (t.take k).filter q = [] :=
            List.filter_eq_nil_iff.2 fun x hx => by
              rw [hall x (List.take_subset _ _ hx)]; simp
          rw [ht, htk]
          simp

/-- The returned row count is always `min limit q` where `q` is the number of
the tenant's stored rows meeting the threshold: filtering after `LIMIT` is
observationally the same as filtering before it, because similarity is
anti-monotone in the very distance the rows are ordered by. -/
theorem search_length_min (model : Str → List ℚ) (dist : List ℚ → List ℚ → ℚ)
    (rows : List DBRow) (query : Str) (uid : Int) (limit : Nat) (minSim : ℚ) :
    (search_similar_embeddings model dist rows query uid limit minSim).length =
      min limit (qualifyingCount model dist rows query uid minSim) := by
  simp only [search_similar_embeddings, qualifyingCount]
  rw [List.filter_map, List.length_map]
  have hcomp : ((fun res : SearchResult => decide (minSim ≤ res.similarity)) ∘
      toResult dist (embed_text model query)) =
      fun r : DBRow =>
        decide (minSim ≤ 1 - dist r.embedding (embed_text model query)) := rfl
  rw [hcomp]
  have hsort := @List.sorted_mergeSort DBRow
    (fun a b : DBRow =>
      decide (dist a.embedding (embed_text model query) ≤
        dist b.embedding (embed_text model query)))
    (fun a b c hab hbc =>
      decide_eq_true (le_trans (of_decide_eq_true hab) (of_decide_eq_true hbc)))
    (fun a b => by
      rw [Bool.or_eq_true]
      rcases le_total (dist a.embedding (embed_text model query))
          (dist b.embedding (embed_text model query)) with h | h
      · exact Or.inl (decide_eq_true h)
      · exact Or.inr (decide_eq_true h))
    (rows.filter fun r => r.metadata.user_id == some uid)
  rw [length_filter_take_sorted _ _ ?hmono _ hsort limit]
  case hmono =>
    intro a b hab hqb
    have hd := of_decide_eq_true hab
    have hq := of_decide_eq_true hqb
    exact decide_eq_true (by linarith)
  congr 1
  exact ((List.mergeSort_perm _ _).filter _).length_eq

/-- C10 counterexample (negation of the claim's final clause): it is
impossible for more than `limit` of the tenant's stored rows to meet the
threshold while fewer than `limit` rows are returned. -/
theorem search_fewer_than_limit_cex :
    ¬ ∃ (model : Str → List ℚ) (dist : List ℚ → List ℚ → ℚ) (rows : List DBRow)
        (query : Str) (uid : Int) (limit : Nat) (minSim : ℚ),
        limit < qualifyingCount model dist rows query uid minSim ∧
        (search_similar_embeddings model dist rows query uid limit minSim).length < limit := by
  rintro ⟨model, dist, rows, query, uid, limit, minSim, hq, hlen⟩
  rw [search_length_min] at hlen
  omega

/-- C10 (amended): the threshold filter indeed runs only after the database
truncates to the `limit` nearest rows, so every returned row is among the
tenant's `limit` nearest; but the returned count always equals
`min limit (number of tenant rows meeting the threshold)` — the post-`LIMIT`
filtering is observationally equivalent to threshold-then-limit. -/
theorem search_limit_then_filter (model : Str → List ℚ) (dist : List ℚ → List ℚ → ℚ)
    (rows : List DBRow) (query : Str) (uid : Int) (limit : Nat) (minSim : ℚ) :
    (∀ r ∈ search_similar_embeddings model dist rows query uid limit minSim,
      ∃ row ∈ nearestRows model dist rows query uid limit,
        r = toResult dist (embed_text model query) row) ∧
    (search_similar_embeddings model dist rows query uid limit minSim).length =
      min limit (qualifyingCount model dist rows query uid minSim) := by
  constructor
  · intro r h
    obtain ⟨row, hrow, heq, -⟩ :=
      search_mem_structure model dist rows query uid limit minSim r h
    exact ⟨row, hrow, heq⟩
  · exact search_length_min model dist rows query uid limit minSim

theorem search_limit_then_filter_witness :
    (∃ row ∈ nearestRows model0 dist0 [rowA] (("q").toList) 1 7,
      resA = toResult dist0 (embed_text model0 (("q").toList)) row) ∧
    (search_similar_embeddings model0 dist0 [rowA] (("q").toList) 1 7 (3 / 10)).length =
      min 7 (qualifyingCount model0 dist0 [rowA] (("q").toList) 1 (3 / 10)) :=
  ⟨(search_limit_then_filter model0 dist0 [rowA] (("q").toList) 1 7 (3 / 10)).1 resA
      (by rw [search_concrete]; exact List.mem_singleton_self resA),
    (search_limit_then_filter model0 dist0 [rowA] (("q").toList) 1 7 (3 / 10)).2⟩

/-! ### Citation deduplication (C7) -/

theorem dedupFirstAux_congr : ∀ (rs : List SearchResult)
    (s1 s2 : List (SourceType × Int)),
    (∀ k, k ∈ s1 ↔ k ∈ s2) → dedupFirstAux s1 rs = dedupFirstAux s2 rs := by
  intro rs
  induction rs with
  | nil => intro s1 s2 _; rfl
  | cons r rs ih =>
      intro s1 s2 h
      simp only [dedupFirstAux]
      by_cases hm : sourceKey r ∈ s1
      · rw [if_pos hm, if_pos ((h _).1 hm)]
        exact ih s1 s2 h
      · rw [if_neg hm, if_neg (fun hc => hm ((h _).2 hc))]
        rw [ih (sourceKey r :: s1) (sourceKey r :: s2) (fun k => by simp [h k])]

/-- The citation fold builds exactly the citations of the first-occurrence
representatives not yet blocked by `seen`. -/
theorem citationLoop_eq : ∀ (rs : List SearchResult) (cits : List Citation)
    (seen : List (SourceType × Int)),
    (rs.foldl
      (fun st r =>
        if sourceKey r ∈ st.2 then st
        else (st.1 ++ [buildCitation r], st.2 ++ [sourceKey r]))
      (cits, seen)).1 =
      cits ++ (dedupFirstAux seen rs).map buildCitation := by
  intro rs
  induction rs with
  | nil => intro cits seen; simp [dedupFirstAux]
  | cons r rs ih =>
      intro cits seen
      rw [List.foldl_cons]
      simp only [dedupFirstAux]
      by_cases hm : sourceKey r ∈ seen
      · rw [if_pos hm, if_pos hm]
        exact ih cits seen
      · rw [if_neg hm, if_neg hm]
        rw [ih (cits ++ [buildCitation r]) (seen ++ [sourceKey r])]
        rw [dedupFirstAux_congr rs (seen ++ [sourceKey r]) (sourceKey r :: seen)
          (fun k => by simp [List.mem_append, List.mem_cons, or_comm])]
        simp

theorem citationLoop_fst (rs : List SearchResult) :
    (citationLoop rs).1 = (dedupFirstOccurrence rs).map buildCitation := by
  unfold citationLoop dedupFirstOccurrence
  exact citationLoop_eq rs [] []

theorem dedupFirstAux_sublist : ∀ (rs : List SearchResult) (seen : List (SourceType × Int)),
    (dedupFirstAux seen rs).Sublist rs := by
  intro rs
  induction rs with
  | nil => intro seen; simp [dedupFirstAux]
  | cons r rs ih =>
      intro seen
      simp only [dedupFirstAux]
      split_ifs with hm
      · exact (ih seen).cons r
      · exact (ih _).cons₂ r

theorem dedupFirstAux_not_mem_seen : ∀ (rs : List SearchResult)
    (seen : List (SourceType × Int)) (d : SearchResult),
    d ∈ dedupFirstAux seen rs → sourceKey d ∉ seen := by
  intro rs
  induction rs with
  | nil => intro seen d hd; simp [dedupFirstAux] at hd
  | cons r rs ih =>
      intro seen d hd
      simp only [dedupFirstAux] at hd
      split_ifs at hd with hm
      · exact ih seen d hd
      · rcases List.mem_cons.1 hd with rfl | hd'
        · exact hm
        · intro hc
          exact ih _ d hd' (List.mem_cons_of_mem _ hc)

theorem dedupFirstAux_keys_nodup : ∀ (rs : List SearchResult)
    (seen : List (SourceType × Int)),
    ((dedupFirstAux seen rs).map sourceKey).Nodup := by
  intro rs
  induction rs with
  | nil => intro seen; simp [dedupFirstAux]
  | cons r rs ih =>
      intro seen
      simp only [dedupFirstAux]
      split_ifs with hm
      · exact ih seen
      · simp only [List.map_cons]
        refine List.nodup_cons.2 ⟨?_, ih _⟩
        intro hc
        obtain ⟨d, hd, hkey⟩ := List.mem_map.1 hc
        exact dedupFirstAux_not_mem_seen rs _ d hd
          (by rw [hkey]; exact List.mem_cons_self _ _)

theorem dedupFirstAux_covers : ∀ (rs : List SearchResult)
    (seen : List (SourceType × Int)) (r : SearchResult), r ∈ rs →
    sourceKey r ∈ seen ∨ sourceKey r ∈ (dedupFirstAux seen rs).map sourceKey := by
  intro rs
  induction rs with
  | nil => intro seen r hr; simp at hr
  | cons a rs ih =>
      intro seen r hr
      simp only [dedupFirstAux]
      rcases List.mem_cons.1 hr with rfl | hr'
      · split_ifs with hm
        · exact Or.inl hm
        · right; simp
      · split_ifs with hm
        · exact ih seen r hr'
        · rcases ih (sourceKey a :: seen) r hr' with h | h
          · rcases List.mem_cons.1 h with he | hs
            · right; simp [he]
            · exact Or.inl hs
          · right
            simp only [List.map_cons]
            exact List.mem_cons_of_mem _ h

theorem dedupFirstAux_find : ∀ (rs : List SearchResult)
    (seen : List (SourceType × Int)) (d : SearchResult),
    d ∈ dedupFirstAux seen rs →
    rs.find? (fun r => sourceKey r == sourceKey d) = some d := by
  intro rs
  induction rs with
  | nil => intro seen d hd; simp [dedupFirstAux] at hd
  | cons a rs ih =>
      intro seen d hd
      simp only [dedupFirstAux] at hd
      split_ifs at hd with hm
      · have hd2 := dedupFirstAux_not_mem_seen rs seen d hd
        have hne : ¬ (sourceKey a == sourceKey d) = true := by
          intro hbeq
          exact hd2 (eq_of_beq hbeq ▸ hm)
        rw [List.find?_cons]
        rw [Bool.eq_false_iff.2 hne]
        exact ih seen d hd
      · rcases List.mem_cons.1 hd with rfl | hd'
        · rw [List.find?_cons]
          rw [show (sourceKey d == sourceKey d) = true from beq_self_eq_true _]
        · have hd2 := dedupFirstAux_not_mem_seen rs _ d hd'
          have hne : ¬ (sourceKey a == sourceKey d) = true := by
            intro hbeq
            exact hd2 (eq_of_beq hbeq ▸ List.mem_cons_self _ _)
          rw [List.find?_cons]
          rw [Bool.eq_false_iff.2 hne]
          exact ih _ d hd'

/-- The number of first-occurrence representatives is the number of distinct
source keys. -/
theorem dedupFirstOccurrence_length (rs : List SearchResult) :
    (dedupFirstOccurrence rs).length = ((rs.map sourceKey).dedup).length := by
  rw [show (dedupFirstOccurrence rs).length =
      ((dedupFirstOccurrence rs).map sourceKey).length from (List.length_map _ _).symm]
  apply List.Perm.length_eq
  apply (List.perm_ext_iff_of_nodup (dedupFirstAux_keys_nodup rs []) (List.nodup_dedup _)).2
  intro k
  constructor
  · intro hk
    rw [List.mem_dedup]
    obtain ⟨d, hd, rfl⟩ := List.mem_map.1 hk
    exact List.mem_map_of_mem _ ((dedupFirstAux_sublist rs []).subset hd)
  · intro hk
    rw [List.mem_dedup] at hk
    obtain ⟨r, hr, rfl⟩ := List.mem_map.1 hk
    rcases dedupFirstAux_covers rs [] r hr with h | h
    · simp at h
    · exact h

/-- C7: the citation list is exactly one citation per distinct
`(source_type, source_id)` key of the results, built from the first
(highest-ranked) occurrence of each source in ranked order, and
`source_count` is the number of distinct sources, not raw chunks. -/
theorem citations_dedup_first_occurrence (results : List SearchResult) :
    (get_all_context_results results).2.1 = (dedupFirstOccurrence results).map buildCitation ∧
    (dedupFirstOccurrence results).Sublist results ∧
    ((dedupFirstOccurrence results).map sourceKey).Nodup ∧
    (∀ r ∈ results, sourceKey r ∈ (dedupFirstOccurrence results).map sourceKey) ∧
    (∀ d ∈ dedupFirstOccurrence results,
      results.find? (fun r => sourceKey r == sourceKey d) = some d) ∧
    (get_all_context_results results).2.2 = ((results.map sourceKey).dedup).length := by
  have hsrc : (get_all_context_results results).2.1 =
      (dedupFirstOccurrence results).map buildCitation := by
    unfold get_all_context_results
    split_ifs with he
    · rw [List.isEmpty_iff.1 he]
      rfl
    · dsimp only
      exact citationLoop_fst results
  refine ⟨hsrc, dedupFirstAux_sublist results [], dedupFirstAux_keys_nodup results [],
    ?_, fun d hd => dedupFirstAux_find results [] d hd, ?_⟩
  · intro r hr
    rcases dedupFirstAux_covers results [] r hr with h | h
    · simp at h
    · exact h
  · unfold get_all_context_results
    split_ifs with he
    · rw [List.isEmpty_iff.1 he]
      rfl
    · dsimp only
      rw [citationLoop_fst, List.length_map]
      exact dedupFirstOccurrence_length results

theorem citations_dedup_first_occurrence_witness :
    (get_all_context_results [resA, resB, resC]).2.2 = 2 := by
  have h := citations_dedup_first_occurrence [resA, resB, resC]
  rw [h.2.2.2.2.2]
  decide

/-! ### Chunking a 1200-character issue (C9) -/

theorem dropWhile_eq_self_of_all_false {α : Type} (p : α → Bool) (l : List α)
    (h : ∀ c ∈ l, p c = false) : l.dropWhile p = l := by
  cases l with
  | nil => rfl
  | cons a t =>
      rw [List.dropWhile_cons, if_neg]
      rw [h a (List.mem_cons_self _ _)]
      exact fun hc => Bool.noConfusion hc

theorem pyStrip_eq_self_of_all_false (l : Str)
    (h : ∀ c ∈ l, pyIsSpace c = false) : pyStrip l = l := by
  unfold pyStrip
  rw [dropWhile_eq_self_of_all_false pyIsSpace l h]
  rw [dropWhile_eq_self_of_all_false pyIsSpace l.reverse
    (fun c hc => h c (List.mem_reverse.1 hc))]
  exact List.reverse_reverse l

/-- Stripping `f"{title}\n\n{body}"` with an empty body and a whitespace-free
title gives back the title. -/
theorem pyStrip_append_two_newlines (t : Str) (ht : t ≠ [])
    (h : ∀ c ∈ t, pyIsSpace c = false) :
    pyStrip (t ++ ['\n', '\n']) = t := by
  unfold pyStrip
  have h1 : (t ++ ['\n', '\n']).dropWhile pyIsSpace = t ++ ['\n', '\n'] := by
    cases t with
    | nil => exact absurd rfl ht
    | cons a t' =>
        rw [List.cons_append, List.dropWhile_cons, if_neg]
        rw [h a (List.mem_cons_self _ _)]
        exact fun hc => Bool.noConfusion hc
  rw [h1, List.reverse_append]
  rw [show (['\n', '\n'] : Str).reverse = ['\n', '\n'] from rfl]
  rw [show (['\n', '\n'] : Str) ++ t.reverse = '\n' :: '\n' :: t.reverse from rfl]
  rw [List.dropWhile_cons, if_pos (by decide), List.dropWhile_cons, if_pos (by decide)]
  rw [dropWhile_eq_self_of_all_false pyIsSpace t.reverse
    (fun c hc => h c (List.mem_reverse.1 hc))]
  exact List.reverse_reverse t

theorem rfind2Aux_eq_best (c1 c2 : Char) : ∀ (s : Str) (i : Nat) (best : Option Nat),
    (∀ x ∈ s, x ≠ c2) → rfind2Aux c1 c2 s i best = best := by
  intro s
  induction s with
  | nil => intro i best _; rfl
  | cons a s ih =>
      intro i best h
      cases s with
      | nil => rfl
      | cons b s' =>
          simp only [rfind2Aux]
          have hb : (b == c2) = false :=
            beq_eq_false_iff_ne.2 (h b (List.mem_cons_of_mem _ (List.mem_cons_self _ _)))
          rw [hb, Bool.and_false, if_neg (fun hc => Bool.noConfusion hc)]
          exact ih (i + 1) best (fun x hx => h x (List.mem_cons_of_mem _ hx))

theorem rfind2_no_space (w : Str) (h : ∀ c ∈ w, pyIsSpace c = false) :
    rfind2 w '.' ' ' = -1 := by
  unfold rfind2
  rw [rfind2Aux_eq_best '.' ' ' w 0 none
    (fun x hx he => by rw [he] at hx; exact absurd (h ' ' hx) (by decide))]

theorem rfind1Aux_eq_best (c : Char) : ∀ (s : Str) (i : Nat) (best : Option Nat),
    (∀ x ∈ s, x ≠ c) → rfind1Aux c s i best = best := by
  intro s
  induction s with
  | nil => intro i best _; rfl
  | cons a s ih =>
      intro i best h
      simp only [rfind1Aux]
      have ha : (a == c) = false := beq_eq_false_iff_ne.2 (h a (List.mem_cons_self _ _))
      rw [ha, if_neg (fun hc => Bool.noConfusion hc)]
      exact ih (i + 1) best (fun x hx => h x (List.mem_cons_of_mem _ hx))

theorem rfind1_no_space (w : Str) (h : ∀ c ∈ w, pyIsSpace c = false) :
    rfind1 w '\n' = -1 := by
  unfold rfind1
  rw [rfind1Aux_eq_best '\n' w 0 none
    (fun x hx he => by rw [he] at hx; exact absurd (h '\n' hx) (by decide))]

/-- A Python slice with in-range natural bounds is drop-then-take. -/
theorem pySlice_natCast (s : Str) (a b : Nat) (hb : b ≤ s.length) :
    pySlice s (a : Int) (b : Int) = (s.drop a).take (b - a) := by
  unfold pySlice pyIdx
  rw [if_neg (by omega), if_neg (by omega)]
  simp only [Int.toNat_ofNat]
  rcases le_or_lt a s.length with ha | ha
  · rw [min_eq_left ha, min_eq_left hb]
  · rw [min_eq_right (le_of_lt ha), min_eq_left hb]
    rw [List.drop_eq_nil_of_le (le_refl _), List.drop_eq_nil_of_le (le_of_lt ha)]
    simp

/-- A Python slice whose right bound exceeds the length is a plain drop. -/
theorem pySlice_natCast_ge (s : Str) (a b : Nat) (hb : s.length ≤ b) :
    pySlice s (a : Int) (b : Int) = s.drop a := by
  unfold pySlice pyIdx
  rw [if_neg (by omega), if_neg (by omega)]
  simp only [Int.toNat_ofNat]
  rw [min_eq_right hb]
  rcases le_or_lt a s.length with ha | ha
  · rw [min_eq_left ha]
    have : s.length - a = (s.drop a).length := (List.length_drop a s).symm
    rw [this, List.take_length]
  · rw [min_eq_right (le_of_lt ha)]
    rw [List.drop_eq_nil_of_le (le_refl _), List.drop_eq_nil_of_le (le_of_lt ha)]
    simp

/-- Every character of a Python slice comes from the original string. -/
theorem pySlice_subset (s : Str) (a b : Int) (c : Char) (hc : c ∈ pySlice s a b) :
    c ∈ s := by
  unfold pySlice at hc
  exact List.drop_subset _ _ (List.take_subset _ _ hc)

/-- On whitespace-free text no break point is ever found, so every window
ends at `start + max_length`. -/
theorem chunkEnd_no_space (text : Str) (m : Nat) (start : Int)
    (h : ∀ c ∈ text, pyIsSpace c = false) :
    chunkEnd text m start = start + (m : Int) := by
  have hw : ∀ c ∈ pySlice text start (start + (m : Int)), pyIsSpace c = false :=
    fun c hc => h c (pySlice_subset text _ _ c hc)
  simp only [chunkEnd]
  split_ifs with hlt hbp
  · exfalso
    rw [rfind2_no_space _ hw, rfind1_no_space _ hw, max_self] at hbp
    omega
  · rfl
  · rfl

/-- One full-window iteration on whitespace-free text: the chunk is the raw
window and the cursor lands at `start + m - o`. -/
theorem chunkStep_no_space_le (text : Str)
    (h : ∀ c ∈ text, pyIsSpace c = false) (m o start : Nat)
    (hle : start + m ≤ text.length) (hs : start < text.length) (hm : 0 < m) :
    chunkStep text m o (start : Int) =
      ([(text.drop start).take m], (start : Int) + (m : Int) - (o : Int)) := by
  unfold chunkStep
  dsimp only
  rw [chunkEnd_no_space text m _ h]
  have hcast : (start : Int) + (m : Int) = ((start + m : Nat) : Int) := by push_cast; ring
  rw [hcast, pySlice_natCast text start (start + m) hle]
  have hsub : start + m - start = m := by omega
  rw [hsub]
  rw [pyStrip_eq_self_of_all_false _
    (fun c hc => h c (List.drop_subset _ _ (List.take_subset _ _ hc)))]
  rw [if_neg ?hne]
  case hne =>
    intro hemp
    have h0 := List.isEmpty_iff.1 hemp
    have hl := congrArg List.length h0
    rw [List.length_take, List.length_drop] at hl
    simp at hl
    omega

/-- The final, overshooting iteration on whitespace-free text: the chunk is
the remaining tail and the cursor lands past the end. -/
theorem chunkStep_no_space_ge (text : Str)
    (h : ∀ c ∈ text, pyIsSpace c = false) (m o start : Nat)
    (hge : text.length ≤ start + m) (hs : start < text.length) :
    chunkStep text m o (start : Int) =
      ([text.drop start], (start : Int) + (m : Int) - (o : Int)) := by
  unfold chunkStep
  dsimp only
  rw [chunkEnd_no_space text m _ h]
  have hcast : (start : Int) + (m : Int) = ((start + m : Nat) : Int) := by push_cast; ring
  rw [hcast, pySlice_natCast_ge text start (start + m) hge]
  rw [pyStrip_eq_self_of_all_false _ (fun c hc => h c (List.drop_subset _ _ hc))]
  rw [if_neg ?hne]
  case hne =>
    intro hemp
    have h0 := List.isEmpty_iff.1 hemp
    have hl := congrArg List.length h0
    rw [List.length_drop] at hl
    simp at hl
    omega

/-- The chunking loop on a whitespace-free 1200-character text with the
production policy: exactly the three windows `[0,500)`, `[450,950)`,
`[900,1200)`. -/
theorem chunk_text_1200 (title : Str) (hlen : title.length = 1200)
    (h : ∀ c ∈ title, pyIsSpace c = false) :
    chunk_text title 500 50 (title.length + 1) =
      some [title.take 500, (title.drop 450).take 500, title.drop 900] := by
  have hs0 := chunkStep_no_space_le title h 500 50 0 (by omega) (by omega) (by omega)
  have hs1 := chunkStep_no_space_le title h 500 50 450 (by omega) (by omega) (by omega)
  have hs2 := chunkStep_no_space_ge title h 500 50 900 (by omega) (by omega)
  push_cast at hs0 hs1 hs2
  norm_num at hs0 hs1 hs2
  unfold chunk_text
  rw [if_neg ?hne, if_neg ?hshort]
  case hne =>
    intro hemp
    have h0 := List.isEmpty_iff.1 hemp
    rw [h0] at hlen
    simp at hlen
  case hshort => omega
  rw [hlen]
  rw [chunkLoop_cont title 500 50 1200 0 [] (by rw [hlen]; norm_num)]
  rw [hs0]
  rw [show (1200 : Nat) = 1199 + 1 from rfl]
  rw [chunkLoop_cont title 500 50 1199 450 _ (by rw [hlen]; norm_num)]
  rw [hs1]
  rw [show (1199 : Nat) = 1198 + 1 from rfl]
  rw [chunkLoop_cont title 500 50 1198 900 _ (by rw [hlen]; norm_num)]
  rw [hs2]
  rw [chunkLoop_stop title 500 50 1198 1350 _ (by rw [hlen]; norm_num)]
  simp

/-- C9 (amended): for an issue whose combined title+body text has length 1200
and contains no whitespace (hence no `". "` or newline break points and no
whitespace-only windows), preparation yields exactly 3 chunk candidates with
`chunk_index` 0, 1, 2, each carrying `total_chunks = 3` and content length at
most 500.  (With sentence terminators inside the windows the count can differ
— see the counterexample.) -/
theorem issue_1200_three_chunks (title : Str) (hlen : title.length = 1200)
    (h : ∀ c ∈ title, pyIsSpace c = false) (issueId : Int) (rn st u : Str) :
    (prepare_issue_for_embedding
      { id := issueId, title := title, body := none, repository_name := rn,
        state := st, url := u }).length = 3 ∧
    (prepare_issue_for_embedding
      { id := issueId, title := title, body := none, repository_name := rn,
        state := st, url := u }).map (fun it => it.metadata.chunk_index) =
      [some 0, some 1, some 2] ∧
    ∀ it ∈ prepare_issue_for_embedding
      { id := issueId, title := title, body := none, repository_name := rn,
        state := st, url := u },
      it.metadata.total_chunks = some 3 ∧ it.content.length ≤ 500 := by
  have hne : title ≠ [] := fun h0 => by rw [h0] at hlen; simp at hlen
  have hfull : pyStrip (title ++ '\n' :: '\n' :: ([] : Str)) = title :=
    pyStrip_append_two_newlines title hne h
  have hchunks : chunk_textD title 500 50 =
      [title.take 500, (title.drop 450).take 500, title.drop 900] := by
    unfold chunk_textD
    rw [chunk_text_1200 title hlen h]
    rfl
  have hitems : prepare_issue_for_embedding
      { id := issueId, title := title, body := none, repository_name := rn,
        state := st, url := u } =
      [{ content := title.take 500, source_type := SourceType.issue, source_id := issueId,
         metadata :=
           { Metadata.empty with
               title := some title, repository := some rn, state := some st,
               url := some u, chunk_index := some 0, total_chunks := some 3 } },
       { content := (title.drop 450).take 500, source_type := SourceType.issue,
         source_id := issueId,
         metadata :=
           { Metadata.empty with
               title := some title, repository := some rn, state := some st,
               url := some u, chunk_index := some 1, total_chunks := some 3 } },
       { content := title.drop 900, source_type := SourceType.issue, source_id := issueId,
         metadata :=
           { Metadata.empty with
               title := some title, repository := some rn, state := some st,
               url := some u, chunk_index := some 2, total_chunks := some 3 } }] := by
    unfold prepare_issue_for_embedding
    dsimp only
    simp only [Option.getD_none]
    rw [hfull]
    rw [if_neg (fun hemp => hne (List.isEmpty_iff.1 hemp))]
    rw [hchunks]
    rfl
  refine ⟨by rw [hitems]; rfl, by rw [hitems]; rfl, ?_⟩
  rw [hitems]
  intro it hit
  simp only [List.mem_cons, List.not_mem_nil, or_false] at hit
  rcases hit with rfl | rfl | rfl
  · exact ⟨rfl, by rw [List.length_take, hlen]; norm_num⟩
  · exact ⟨rfl, by rw [List.length_take, List.length_drop, hlen]; norm_num⟩
  · exact ⟨rfl, by rw [List.length_drop, hlen]; norm_num⟩

set_option maxRecDepth 8000 in
/-- C9 counterexample: an issue with a whitespace-free-apart-from-sentence-
terminators combined text of length exactly 1200 whose `". "` breaks make the
window trimming fire: preparation emits 5 candidates, not 3. -/
theorem issue_1200_not_three_chunks_cex :
    (pyStrip (denseBreakIssue.title ++ '\n' :: '\n' ::
      (denseBreakIssue.body.getD []))).length = 1200 ∧
    (prepare_issue_for_embedding denseBreakIssue).length = 5 ∧
    (prepare_issue_for_embedding denseBreakIssue).length ≠ 3 := by
  exact ⟨by decide, by decide, by decide⟩

theorem issue_1200_three_chunks_witness :
    (prepare_issue_for_embedding
      { id := 0, title := List.replicate 1200 'a', body := none,
        repository_name := [], state := [], url := [] }).length = 3 :=
  (issue_1200_three_chunks (List.replicate 1200 'a') (by rw [List.length_replicate])
    (fun c hc => by rw [List.eq_of_mem_replicate hc]; rfl) 0 [] [] []).1

end WhyBase
